import Mathlib

/-!
Verification of the section segmenter of the DocuMind document processor
(file document_processor.py). Page texts are modelled as lists of
characters; each helper of the Python class DocumentProcessor is
translated into an executable Lean function over that representation,
and the claimed properties of the segmenter are proved about these
functions.
-/

namespace DocProc

/-- ASCII whitespace recognised by the Python functions str.strip and
the regex class backslash-s (space, tab, newline, carriage return,
vertical tab, form feed). -/
def isPySpace (c : Char) : Bool :=
  c = ' ' || c = '\t' || c = '\n' || c = '\r' || c = '\x0b' || c = '\x0c'

/-- ASCII decimal digit, the regex class backslash-d. -/
def isDigitPy (c : Char) : Bool :=
  '0' ≤ c && c ≤ '9'

/-- ASCII uppercase letter, the regex class A-Z. -/
def isUpperAZ (c : Char) : Bool :=
  'A' ≤ c && c ≤ 'Z'

/-- ASCII lowering of one character, modelling str.lower and the
case-insensitive regex flag on ASCII patterns. -/
def toLowerPy (c : Char) : Char :=
  if isUpperAZ c then Char.ofNat (c.toNat + 32) else c

/-- Lowercase an entire string (list of characters). -/
def lowerStr (l : List Char) : List Char :=
  l.map toLowerPy

/-- Drop the leading whitespace of a string, the left half of str.strip. -/
def lstrip (l : List Char) : List Char :=
  l.dropWhile isPySpace

/-- Drop the trailing whitespace of a string, the right half of str.strip. -/
def rstrip : List Char → List Char
  | [] => []
  | c :: cs =>
    let r := rstrip cs
    if r.isEmpty then (if isPySpace c then [] else [c]) else c :: r

/-- Python str.strip: remove leading and trailing whitespace. -/
def strip (l : List Char) : List Char :=
  rstrip (lstrip l)

/-- Python text.split with separator newline: always at least one piece,
empty input giving one empty piece. -/
def splitOnNl : List Char → List (List Char)
  | [] => [[]]
  | c :: cs =>
    if c = '\n' then [] :: splitOnNl cs
    else
      let r := splitOnNl cs
      (c :: r.headI) :: r.tail

/-- Python single-space join of a list of strings. -/
def join1 : List (List Char) → List Char
  | [] => []
  | [l] => l
  | l :: ls => l ++ ' ' :: join1 ls

/-- Python substring membership test, the operator in on strings. -/
def inStr (needle : List Char) : List Char → Bool
  | [] => needle.isPrefixOf ([] : List Char)
  | c :: cs => needle.isPrefixOf (c :: cs) || inStr needle cs

/-- Regex for the title rule: an uppercase letter followed by characters
none of which is a period, exclamation mark or question mark, anchored at
both ends. -/
def matchTitle : List Char → Bool
  | [] => false
  | c :: cs => isUpperAZ c && cs.all (fun d => !(d = '.' || d = '!' || d = '?'))

/-- Case-insensitive anchored literal prefix test used by the remaining
regexes: the pattern literal against the lowered line. -/
def startsCI (pat : String) (l : List Char) : Bool :=
  pat.data.isPrefixOf (lowerStr l)

/-- After an anchored literal, skip any run of whitespace and test a
second case-insensitive literal, modelling patterns of the shape
digit period backslash-s-star word. -/
def numThen (d : String) (pat : String) (l : List Char) : Bool :=
  let low := lowerStr l
  d.data.isPrefixOf low && pat.data.isPrefixOf ((low.drop d.length).dropWhile isPySpace)

/-- Regex for the abstract rule: starts with abstract or summary,
case-insensitive. -/
def matchAbstract (l : List Char) : Bool :=
  startsCI "abstract" l || startsCI "summary" l

/-- Regex for the introduction rule. -/
def matchIntroduction (l : List Char) : Bool :=
  startsCI "introduction" l || numThen "1." "introduction" l

/-- Regex for the methodology rule. -/
def matchMethodology (l : List Char) : Bool :=
  startsCI "methodology" l || startsCI "method" l || numThen "2." "method" l

/-- Regex for the results rule. -/
def matchResults (l : List Char) : Bool :=
  startsCI "result" l || numThen "3." "result" l

/-- Regex for the conclusion rule. -/
def matchConclusion (l : List Char) : Bool :=
  startsCI "conclusion" l || numThen "4." "conclusion" l

/-- Regex for the references rule. -/
def matchReferences (l : List Char) : Bool :=
  startsCI "reference" l || startsCI "bibliography" l

/-- Regex for the generic numbered-section rule: digits, an optional
period, at least one whitespace character, then an uppercase letter. -/
def matchSectionNum (l : List Char) : Bool :=
  let ds := l.takeWhile isDigitPy
  let rest := l.drop ds.length
  let rest2 := match rest with
    | '.' :: t => t
    | r => r
  let ws := rest2.takeWhile isPySpace
  !ds.isEmpty && !ws.isEmpty &&
    (match rest2.drop ws.length with
     | c :: _ => isUpperAZ c
     | [] => false)

/-- The processor object: its only state is the ordered table of
classification rules built in the constructor. -/
structure DocumentProcessor where
  section_patterns : List (String × (List Char → Bool))

/-- The table built by DocumentProcessor.__init__, in insertion order. -/
def procInit : DocumentProcessor :=
  ⟨[("title", matchTitle),
    ("abstract", matchAbstract),
    ("introduction", matchIntroduction),
    ("methodology", matchMethodology),
    ("results", matchResults),
    ("conclusion", matchConclusion),
    ("references", matchReferences),
    ("section", matchSectionNum)]⟩

/-- The method identify-section-type: scan the rule table in order and
return the first name whose regex matches, otherwise nothing. -/
def identify_section_type (p : DocumentProcessor) (line : List Char) : Option String :=
  match p.section_patterns.find? (fun r => r.2 line) with
  | some r => some r.1
  | none => none

/-- A section record as produced by the segmenter. -/
structure DocumentSection where
  title : List Char
  content : List Char
  page_number : Nat
  section_type : String
deriving DecidableEq

/-- The Python truthiness guard on the classified type: a non-empty
name different from the generic name section. -/
def namedGuard : Option String → Bool
  | some t => !(t == "") && !(t == "section")
  | none => false

/-- The synthesized title for body text occurring before any heading. -/
def pageTitle (n : Nat) : List Char :=
  "Page ".data ++ Nat.toDigits 10 n ++ " Content".data

/-- The loop body of extract-sections: walk the lines keeping the
current section title and the accumulated content lines. -/
def sectionsLoop (p : DocumentProcessor) (page_number : Nat) :
    List (List Char) → Option (List Char) → List (List Char) → List DocumentSection
  | [], current_section, current_content =>
    match current_section with
    | some t =>
      if current_content.isEmpty then []
      else [⟨t, strip (join1 current_content), page_number, "section"⟩]
    | none => []
  | l :: ls, current_section, current_content =>
    let line := strip l
    if line.isEmpty then
      sectionsLoop p page_number ls current_section current_content
    else
      let st := identify_section_type p line
      if namedGuard st then
        (match current_section with
         | some t => [⟨t, strip (join1 current_content), page_number, "section"⟩]
         | none => []) ++
        ⟨line, [], page_number, st.getD ""⟩ ::
          sectionsLoop p page_number ls (some line) []
      else
        match current_section with
        | some _ =>
          sectionsLoop p page_number ls current_section (current_content ++ [line])
        | none =>
          sectionsLoop p page_number ls (some (pageTitle page_number)) [line]

/-- The method extract-sections of the document processor. -/
def extract_sections (p : DocumentProcessor) (text : List Char) (page_number : Nat) :
    List DocumentSection :=
  sectionsLoop p page_number (splitOnNl text) none []

/-- The loop of extract-title over the first ten lines, with the early
return of the Python loop. -/
def titleLoop : List (List Char) → List Char
  | [] => "Untitled Document".data
  | l :: ls =>
    let line := strip l
    if 10 < line.length && line.length < 200 then
      if ["abstract", "introduction", "page", "doi"].any
          (fun w => inStr w.data (lowerStr line)) then
        titleLoop ls
      else line
    else titleLoop ls

/-- The method extract-title of the document processor. -/
def extract_title (text : List Char) : List Char :=
  titleLoop ((splitOnNl text).take 10)

/-- Regex for an end-of-abstract numeric heading: digits then a period,
anchored at the start. -/
def matchNumDot (l : List Char) : Bool :=
  let ds := l.takeWhile isDigitPy
  !ds.isEmpty &&
    (match l.drop ds.length with
     | '.' :: _ => true
     | _ => false)

/-- Regex for an end-of-abstract introduction heading: the word
introduction or the literal one-period, case-insensitive. -/
def matchIntroOne (l : List Char) : Bool :=
  startsCI "introduction" l || startsCI "1." l

/-- Regex for an end-of-abstract keywords heading. -/
def matchKeywords (l : List Char) : Bool :=
  startsCI "keyword" l ||
    ("key".data.isPrefixOf (lowerStr l) &&
      (let rest := (lowerStr l).drop 3
       !(rest.takeWhile isPySpace).isEmpty &&
         "word".data.isPrefixOf (rest.dropWhile isPySpace)))

/-- Disjunction of the three end-of-abstract rules. -/
def matchEndRule (l : List Char) : Bool :=
  matchNumDot l || matchIntroOne l || matchKeywords l

/-- The scanning loop of extract-abstract: the index one past each line
matching the abstract rule overwrites the start, and the first
non-abstract line matching an end rule after a start was seen stops the
scan as the exclusive end. -/
def scanBounds : List (List Char) → Nat → Option Nat → Option Nat × Option Nat
  | [], _, st => (st, none)
  | l :: ls, i, st =>
    if matchAbstract l then scanBounds ls (i + 1) (some (i + 1))
    else if st.isSome && matchEndRule l then (st, some i)
    else scanBounds ls (i + 1) st

/-- The slicing and length gate of extract-abstract, applied to the
already split lines. -/
def abstractFromLines (lines : List (List Char)) : Option (List Char) :=
  match scanBounds lines 0 none with
  | (some s, e) =>
    let absLines :=
      match e with
      | some j => (lines.drop s).take (j - s)
      | none => (lines.drop s).take 10
    let t := strip (join1 absLines)
    if 50 < t.length then some t else none
  | (none, _) => none

/-- The method extract-abstract of the document processor. -/
def extract_abstract (text : List Char) : Option (List Char) :=
  abstractFromLines (splitOnNl text)

/-- Python newline join, inverse of the newline split on texts whose
lines hold no newline. -/
def unlines : List (List Char) → List Char
  | [] => []
  | [l] => l
  | l :: ls => l ++ '\n' :: unlines ls

/-- A call of the extract-sections method in state-passing form: the
method only reads the rule table, so the processor comes back unchanged
with the result. -/
def extract_sections_call (p : DocumentProcessor) (text : List Char) (n : Nat) :
    List DocumentSection × DocumentProcessor :=
  (extract_sections p text n, p)

/-- The cumulative effect of a run of lines on the recorded start index
of the abstract scan: each line matching the abstract rule overwrites it
with its index plus one. -/
def stepSt : List (List Char) → Nat → Option Nat → Option Nat
  | [], _, st => st
  | l :: ls, i, st =>
    stepSt ls (i + 1) (if matchAbstract l then some (i + 1) else st)

/-- The classification rules written as an explicit chain in the priority
order stated by the spec, for comparison with the table scan. -/
def specClassify (line : List Char) : Option String :=
  if matchTitle line then some "title"
  else if matchAbstract line then some "abstract"
  else if matchIntroduction line then some "introduction"
  else if matchMethodology line then some "methodology"
  else if matchResults line then some "results"
  else if matchConclusion line then some "conclusion"
  else if matchReferences line then some "references"
  else if matchSectionNum line then some "section"
  else none

/-- The qualification test of the spec for a title line: trimmed length
strictly between 10 and 200 and no forbidden word as a case-insensitive
substring. -/
def titleQualifies (l : List Char) : Bool :=
  decide (10 < (strip l).length) && decide ((strip l).length < 200) &&
    (["abstract", "introduction", "page", "doi"].all
      (fun w => !inStr w.data (lowerStr (strip l))))

/-- The title extraction as worded by the spec: the first qualifying line
among the first ten, trimmed, with the literal fallback. -/
def titleSpecPick (text : List Char) : List Char :=
  match ((splitOnNl text).take 10).find? titleQualifies with
  | some l => strip l
  | none => "Untitled Document".data

/-- The abstract extraction as worded by the claim, anchoring the start
one past the FIRST line matching the abstract rule. -/
def abstractSpecFirst (text : List Char) : Option (List Char) :=
  let lines := splitOnNl text
  match lines.findIdx? matchAbstract with
  | none => none
  | some j =>
    let s := j + 1
    let absLines :=
      match (lines.drop s).findIdx? matchEndRule with
      | some k => (lines.drop s).take k
      | none => (lines.drop s).take 10
    let t := strip (join1 absLines)
    if 50 < t.length then some t else none

/-! ### Basic lemmas about the string primitives -/

theorem lstrip_cons_neg (c : Char) (cs : List Char) (h : isPySpace c = false) :
    lstrip (c :: cs) = c :: cs := by
  simp [lstrip, List.dropWhile_cons, h]

theorem lstrip_head_not {l : List Char} {c : Char} {cs : List Char}
    (h : lstrip l = c :: cs) : isPySpace c = false := by
  induction l with
  | nil => simp [lstrip] at h
  | cons a l ih =>
    by_cases ha : isPySpace a = true
    · exact ih (by simpa [lstrip, List.dropWhile_cons, ha] using h)
    · have ha2 : isPySpace a = false := by
        simpa using ha
      rw [lstrip_cons_neg a l ha2] at h
      rw [← (List.cons.injEq a l c cs).mp h |>.1]
      exact ha2

theorem lstrip_idem (l : List Char) : lstrip (lstrip l) = lstrip l := by
  cases h : lstrip l with
  | nil => simp [lstrip]
  | cons c cs => exact lstrip_cons_neg c cs (lstrip_head_not h)

theorem rstrip_cons (c : Char) (cs : List Char) :
    rstrip (c :: cs) =
      if (rstrip cs).isEmpty then (if isPySpace c then [] else [c])
      else c :: rstrip cs := by
  simp [rstrip]

theorem rstrip_cons_of_nil (c : Char) {cs : List Char} (h : rstrip cs = []) :
    rstrip (c :: cs) = if isPySpace c then [] else [c] := by
  rw [rstrip_cons, h]
  rfl

theorem rstrip_cons_of_ne (c : Char) {cs : List Char} (h : rstrip cs ≠ []) :
    rstrip (c :: cs) = c :: rstrip cs := by
  rw [rstrip_cons, if_neg]
  simpa [List.isEmpty_iff] using h

theorem rstrip_cons_shape (c : Char) (cs : List Char) :
    rstrip (c :: cs) = [] ∨ ∃ r, rstrip (c :: cs) = c :: r := by
  by_cases h : rstrip cs = []
  · by_cases hc : isPySpace c = true
    · left; rw [rstrip_cons_of_nil c h, if_pos hc]
    · right
      refine ⟨[], ?_⟩
      rw [rstrip_cons_of_nil c h, if_neg hc]
  · right; exact ⟨rstrip cs, rstrip_cons_of_ne c h⟩

theorem rstrip_idem (l : List Char) : rstrip (rstrip l) = rstrip l := by
  induction l with
  | nil => rfl
  | cons c cs ih =>
    by_cases h : rstrip cs = []
    · rw [rstrip_cons_of_nil c h]
      by_cases hc : isPySpace c
      · rw [if_pos hc]
        rfl
      · have h0 : rstrip ([] : List Char) = [] := rfl
        rw [if_neg hc, rstrip_cons_of_nil c h0, if_neg hc]
    · rw [rstrip_cons_of_ne c h]
      have h2 : rstrip (rstrip cs) ≠ [] := by
        rw [ih]; exact h
      rw [rstrip_cons_of_ne c h2, ih]

theorem lstrip_rstrip_lstrip (l : List Char) :
    lstrip (rstrip (lstrip l)) = rstrip (lstrip l) := by
  cases h : lstrip l with
  | nil => rfl
  | cons c cs =>
    have hc := lstrip_head_not h
    rcases rstrip_cons_shape c cs with h2 | ⟨r, h2⟩
    · rw [h2]; rfl
    · rw [h2]; exact lstrip_cons_neg c r hc

theorem strip_idem (l : List Char) : strip (strip l) = strip l := by
  unfold strip
  rw [lstrip_rstrip_lstrip, rstrip_idem]

theorem strip_nil : strip [] = [] := rfl

theorem rstrip_append_right (xs ys : List Char) (h : rstrip ys ≠ []) :
    rstrip (xs ++ ys) = xs ++ rstrip ys := by
  induction xs with
  | nil => simp
  | cons x xs ih =>
    have hne : rstrip (xs ++ ys) ≠ [] := by
      rw [ih]
      intro hx
      exact h ((List.append_eq_nil).mp hx).2
    rw [List.cons_append, rstrip_cons_of_ne x hne, ih]
    rfl

theorem strip_pageTitle (n : Nat) : strip (pageTitle n) = pageTitle n := by
  have h1 : lstrip (pageTitle n) = pageTitle n := by
    have he : pageTitle n =
        'P' :: ("age ".data ++ (Nat.toDigits 10 n ++ " Content".data)) := rfl
    rw [he]
    exact lstrip_cons_neg _ _ (by decide)
  have h2 : rstrip (pageTitle n) = pageTitle n := by
    have he : pageTitle n =
        ("Page ".data ++ Nat.toDigits 10 n) ++ " Content".data := by
      simp [pageTitle, List.append_assoc]
    rw [he]
    have hr : rstrip (" Content".data) = " Content".data := by decide
    rw [rstrip_append_right _ _ (by rw [hr]; decide), hr]
  unfold strip
  rw [h1, h2]

/-! ### Lemmas about the newline split -/

theorem splitOnNl_no_nl (l : List Char) (h : '\n' ∉ l) : splitOnNl l = [l] := by
  induction l with
  | nil => rfl
  | cons c cs ih =>
    have hc : ¬(c = '\n') := fun he => h (he ▸ List.mem_cons_self c cs)
    have hcs : '\n' ∉ cs := fun hm => h (List.mem_cons_of_mem c hm)
    simp [splitOnNl, hc, ih hcs]

theorem splitOnNl_append (l t : List Char) (h : '\n' ∉ l) :
    splitOnNl (l ++ '\n' :: t) = l :: splitOnNl t := by
  induction l with
  | nil => simp [splitOnNl]
  | cons c cs ih =>
    have hc : ¬(c = '\n') := fun he => h (he ▸ List.mem_cons_self c cs)
    have hcs : '\n' ∉ cs := fun hm => h (List.mem_cons_of_mem c hm)
    simp [splitOnNl, hc, ih hcs]

theorem splitOnNl_unlines (L : List (List Char)) (h0 : L ≠ [])
    (h : ∀ l ∈ L, '\n' ∉ l) : splitOnNl (unlines L) = L := by
  induction L with
  | nil => exact absurd rfl h0
  | cons l ls ih =>
    cases ls with
    | nil => exact splitOnNl_no_nl l (h l (List.mem_cons_self l []))
    | cons x xs =>
      have hl : '\n' ∉ l := h l (List.mem_cons_self l (x :: xs))
      have hrest : ∀ m ∈ x :: xs, '\n' ∉ m := fun m hm =>
        h m (List.mem_cons_of_mem l hm)
      have : unlines (l :: x :: xs) = l ++ '\n' :: unlines (x :: xs) := rfl
      rw [this, splitOnNl_append l _ hl, ih (by simp) hrest]

/-! ### Lemmas about the section loop -/

theorem sectionsLoop_blanks (p : DocumentProcessor) (n : Nat) :
    ∀ (ls : List (List Char)) (cur : Option (List Char)) (acc : List (List Char)),
      (∀ l ∈ ls, strip l = []) →
      sectionsLoop p n ls cur acc = sectionsLoop p n [] cur acc := by
  intro ls
  induction ls with
  | nil => intro cur acc _; rfl
  | cons l ls ih =>
    intro cur acc h
    have hl : strip l = [] := h l (List.mem_cons_self l ls)
    have hrest : ∀ x ∈ ls, strip x = [] := fun x hx => h x (List.mem_cons_of_mem l hx)
    have hstep : sectionsLoop p n (l :: ls) cur acc = sectionsLoop p n ls cur acc := by
      simp [sectionsLoop, hl]
    rw [hstep, ih cur acc hrest]

theorem sectionsLoop_accum (p : DocumentProcessor) (n : Nat) :
    ∀ (bs : List (List Char)) (rest : List (List Char)) (c : List Char)
      (acc : List (List Char)),
      (∀ b ∈ bs, strip b = b ∧ b ≠ [] ∧
        namedGuard (identify_section_type p b) = false) →
      sectionsLoop p n (bs ++ rest) (some c) acc =
        sectionsLoop p n rest (some c) (acc ++ bs) := by
  intro bs
  induction bs with
  | nil => intro rest c acc _; simp
  | cons b bs ih =>
    intro rest c acc h
    obtain ⟨hb1, hb2, hb3⟩ := h b (List.mem_cons_self b bs)
    have hrest := fun x hx => h x (List.mem_cons_of_mem b hx)
    have hne : (strip b).isEmpty = false := by
      rw [hb1]
      cases b with
      | nil => exact absurd rfl hb2
      | cons _ _ => rfl
    have hstep : sectionsLoop p n (b :: (bs ++ rest)) (some c) acc =
        sectionsLoop p n (bs ++ rest) (some c) (acc ++ [b]) := by
      simp [sectionsLoop, hne, hb1, hb3]
      exact fun hcontra => absurd hcontra hb2
    rw [List.cons_append, hstep, ih rest c (acc ++ [b]) hrest, List.append_assoc]
    rfl

/-! ### Lemmas about the abstract scan -/

theorem stepSt_append (xs ys : List (List Char)) :
    ∀ (i : Nat) (st : Option Nat),
      stepSt (xs ++ ys) i st = stepSt ys (i + xs.length) (stepSt xs i st) := by
  induction xs with
  | nil => intro i st; simp [stepSt]
  | cons x xs ih =>
    intro i st
    have harith : (i + 1) + xs.length = i + (x :: xs).length := by
      simp
      omega
    simp only [List.cons_append, stepSt, List.append_eq]
    rw [ih, harith]

theorem stepSt_no_abs (ls : List (List Char)) :
    ∀ (i : Nat) (st : Option Nat), (∀ l ∈ ls, matchAbstract l = false) →
      stepSt ls i st = st := by
  induction ls with
  | nil => intro i st _; rfl
  | cons l ls ih =>
    intro i st h
    have hl : matchAbstract l = false := h l (List.mem_cons_self l ls)
    simp only [stepSt, hl, if_neg, Bool.false_eq_true, if_false]
    exact ih (i + 1) st fun x hx => h x (List.mem_cons_of_mem l hx)

theorem scanBounds_skip :
    ∀ (pre : List (List Char)) (rest : List (List Char)) (i : Nat) (st : Option Nat),
      (∀ l ∈ pre, matchAbstract l = true ∨ matchEndRule l = false) →
      scanBounds (pre ++ rest) i st =
        scanBounds rest (i + pre.length) (stepSt pre i st) := by
  intro pre
  induction pre with
  | nil => intro rest i st _; simp [stepSt]
  | cons l ls ih =>
    intro rest i st h
    have hrest := fun x hx => h x (List.mem_cons_of_mem l hx)
    have harith : (i + 1) + ls.length = i + (l :: ls).length := by
      simp
      omega
    by_cases hl : matchAbstract l = true
    · have hstep : scanBounds ((l :: ls) ++ rest) i st =
          scanBounds (ls ++ rest) (i + 1) (some (i + 1)) := by
        simp [scanBounds, hl]
      have hst : stepSt (l :: ls) i st = stepSt ls (i + 1) (some (i + 1)) := by
        simp [stepSt, hl]
      rw [hstep, ih rest (i + 1) (some (i + 1)) hrest, harith, hst]
    · have hl2 : matchAbstract l = false := by simpa using hl
      have he : matchEndRule l = false := by
        rcases h l (List.mem_cons_self l ls) with h1 | h1
        · exact absurd h1 hl
        · exact h1
      have hstep : scanBounds ((l :: ls) ++ rest) i st =
          scanBounds (ls ++ rest) (i + 1) st := by
        simp [scanBounds, hl2, he]
      have hst : stepSt (l :: ls) i st = stepSt ls (i + 1) st := by
        simp [stepSt, hl2]
      rw [hstep, ih rest (i + 1) st hrest, harith, hst]

theorem scanBounds_stop (e : List Char) (post : List (List Char)) (i s : Nat)
    (ha : matchAbstract e = false) (he : matchEndRule e = true) :
    scanBounds (e :: post) i (some s) = (some s, some i) := by
  simp [scanBounds, ha, he]

theorem all_not_eq_not_any {α : Type} (xs : List α) (q : α → Bool) :
    xs.all (fun x => !q x) = !xs.any q := by
  induction xs with
  | nil => rfl
  | cons x xs ih => simp [List.all_cons, List.any_cons, ih, Bool.not_or]

theorem titleLoop_eq (ls : List (List Char)) :
    titleLoop ls =
      match ls.find? titleQualifies with
      | some l => strip l
      | none => "Untitled Document".data := by
  induction ls with
  | nil => rfl
  | cons l ls ih =>
    by_cases h1 : (10 < (strip l).length ∧ (strip l).length < 200)
    case pos =>
      by_cases h2 : (["abstract", "introduction", "page", "doi"].any
          (fun w => inStr w.data (lowerStr (strip l)))) = true
      case pos =>
        have hq : titleQualifies l = false := by
          simp only [titleQualifies, all_not_eq_not_any, h2]
          simp
        have hloop : titleLoop (l :: ls) = titleLoop ls := by
          simp [titleLoop, h1.1, h1.2, h2]
        rw [hloop, ih, List.find?_cons_of_neg ls (by simp [hq])]
      case neg =>
        have h2b : (["abstract", "introduction", "page", "doi"].any
            (fun w => inStr w.data (lowerStr (strip l)))) = false := by
          simpa using h2
        have hq : titleQualifies l = true := by
          simp [titleQualifies, all_not_eq_not_any, h2b, h1.1, h1.2]
        have hloop : titleLoop (l :: ls) = strip l := by
          simp [titleLoop, h1.1, h1.2, h2b]
        rw [hloop, List.find?_cons_of_pos ls hq]
    case neg =>
      have hcond : (decide (10 < (strip l).length) &&
          decide ((strip l).length < 200)) = false := by
        rcases not_and_or.mp h1 with h | h
        · simp [decide_eq_false h]
        · simp [decide_eq_false h]
      have hq : titleQualifies l = false := by
        simp only [titleQualifies]
        rw [hcond]
        simp
      have hloop : titleLoop (l :: ls) = titleLoop ls := by
        simp only [titleLoop]
        rw [hcond]
        simp
      rw [hloop, ih, List.find?_cons_of_neg ls (by simp [hq])]

/-! ### Claim theorems -/

/-- C3: the three segmenter operations are total Lean functions over every
string, and on the empty string extract-sections returns the empty list
for every page number, extract-title returns the fallback Untitled
Document, and extract-abstract returns none. -/
theorem c3_theorem :
    (∀ n : Nat, extract_sections procInit ("".data) n = []) ∧
    extract_title ("".data) = "Untitled Document".data ∧
    extract_abstract ("".data) = none :=
  ⟨fun _ => rfl, rfl, rfl⟩

/-- C4: extract-title returns the first of the first ten lines whose
trimmed length is strictly between 10 and 200 and which holds none of
the four forbidden words as a case-insensitive substring, trimmed, with
the literal fallback Untitled Document when no line qualifies; on the
stated example it returns A Study of Widgets. -/
theorem c4_theorem :
    (∀ text : List Char, extract_title text = titleSpecPick text) ∧
    extract_title ("Introduction\nA Study of Widgets\nDOI: 10.1/x".data) =
      "A Study of Widgets".data := by
  constructor
  · intro text
    unfold extract_title titleSpecPick
    exact titleLoop_eq _
  · decide

/-- C5: the classifier tests the rules in the fixed priority order of the
constructor table and returns the first match, and the line 2. Methodology
is classified as methodology and not as the generic section type. -/
theorem c5_theorem :
    (∀ line : List Char, identify_section_type procInit line = specClassify line) ∧
    identify_section_type procInit ("2. Methodology".data) = some "methodology" := by
  have hmain : ∀ line : List Char,
      identify_section_type procInit line = specClassify line := by
    intro line
    by_cases h1 : matchTitle line = true
    · simp [identify_section_type, procInit, specClassify, List.find?, h1]
    · have h1f : matchTitle line = false := by simpa using h1
      by_cases h2 : matchAbstract line = true
      · simp [identify_section_type, procInit, specClassify, List.find?, h1f, h2]
      · have h2f : matchAbstract line = false := by simpa using h2
        by_cases h3 : matchIntroduction line = true
        · simp [identify_section_type, procInit, specClassify, List.find?, h1f, h2f, h3]
        · have h3f : matchIntroduction line = false := by simpa using h3
          by_cases h4 : matchMethodology line = true
          · simp [identify_section_type, procInit, specClassify, List.find?,
              h1f, h2f, h3f, h4]
          · have h4f : matchMethodology line = false := by simpa using h4
            by_cases h5 : matchResults line = true
            · simp [identify_section_type, procInit, specClassify, List.find?,
                h1f, h2f, h3f, h4f, h5]
            · have h5f : matchResults line = false := by simpa using h5
              by_cases h6 : matchConclusion line = true
              · simp [identify_section_type, procInit, specClassify, List.find?,
                  h1f, h2f, h3f, h4f, h5f, h6]
              · have h6f : matchConclusion line = false := by simpa using h6
                by_cases h7 : matchReferences line = true
                · simp [identify_section_type, procInit, specClassify, List.find?,
                    h1f, h2f, h3f, h4f, h5f, h6f, h7]
                · have h7f : matchReferences line = false := by simpa using h7
                  by_cases h8 : matchSectionNum line = true
                  · simp [identify_section_type, procInit, specClassify, List.find?,
                      h1f, h2f, h3f, h4f, h5f, h6f, h7f, h8]
                  · have h8f : matchSectionNum line = false := by simpa using h8
                    simp [identify_section_type, procInit, specClassify, List.find?,
                      h1f, h2f, h3f, h4f, h5f, h6f, h7f, h8f]
  exact ⟨hmain, by decide⟩

/-- C7: a page text all of whose lines trim to the empty string produces
the empty section list. -/
theorem c7_theorem (text : List Char) (n : Nat)
    (h : ∀ l ∈ splitOnNl text, strip l = []) :
    extract_sections procInit text n = [] := by
  unfold extract_sections
  rw [sectionsLoop_blanks procInit n (splitOnNl text) none [] h]
  rfl

/-- C7 witness: a concrete whitespace-only page. -/
theorem c7_witness :
    (∀ l ∈ splitOnNl (" \n\t\n ".data), strip l = []) ∧
    extract_sections procInit (" \n\t\n ".data) 2 = [] :=
  ⟨by decide, c7_theorem (" \n\t\n ".data) 2 (by decide)⟩

/-- C8: segmentation is deterministic and leaves the processor state,
namely its rule table, unchanged: a call returns the processor as it
received it, and a second call through the returned state yields the
identical output list. -/
theorem c8_theorem :
    ∀ (p : DocumentProcessor) (text : List Char) (n : Nat),
      (extract_sections_call p text n).2 = p ∧
      (extract_sections_call (extract_sections_call p text n).2 text n).1 =
        (extract_sections_call p text n).1 :=
  fun _ _ _ => ⟨rfl, rfl⟩

/-- C9: any line starting with an ASCII uppercase letter and containing
no period, exclamation mark or question mark matches the first rule of
the table and is classified title; such a heading line alone on a page
therefore yields one empty-content record tagged title, never its more
specific name. -/
theorem c9_theorem (c : Char) (cs : List Char)
    (h1 : isUpperAZ c = true)
    (h2 : ∀ d ∈ c :: cs, d ≠ '.' ∧ d ≠ '!' ∧ d ≠ '?') :
    identify_section_type procInit (c :: cs) = some "title" ∧
    (∀ n : Nat, strip (c :: cs) = c :: cs → '\n' ∉ (c :: cs) →
      extract_sections procInit (c :: cs) n =
        [⟨c :: cs, [], n, "title"⟩]) := by
  have ht : matchTitle (c :: cs) = true := by
    simp only [matchTitle, h1, Bool.true_and]
    rw [List.all_eq_true]
    intro d hd
    obtain ⟨hd1, hd2, hd3⟩ := h2 d (List.mem_cons_of_mem c hd)
    simp [hd1, hd2, hd3]
  have hid : identify_section_type procInit (c :: cs) = some "title" := by
    simp [identify_section_type, procInit, List.find?, ht]
  refine ⟨hid, ?_⟩
  intro n hstrip hnl
  unfold extract_sections
  rw [splitOnNl_no_nl _ hnl]
  simp [sectionsLoop, hstrip, hid, namedGuard]

/-- C9 witness: the heading line Abstract is tagged title. -/
theorem c9_witness :
    identify_section_type procInit ("Abstract".data) = some "title" ∧
    extract_sections procInit ("Abstract".data) 1 =
      [⟨"Abstract".data, [], 1, "title"⟩] := by
  have h := c9_theorem 'A' ("bstract".data) (by decide) (by decide)
  exact ⟨h.1, h.2 1 (by decide) (by decide)⟩

theorem c10_loop (p : DocumentProcessor) (n : Nat) :
    ∀ (ls : List (List Char)) (cur : Option (List Char)) (acc : List (List Char)),
      (∀ t, cur = some t → strip t = t) →
      ∀ s ∈ sectionsLoop p n ls cur acc,
        s.page_number = n ∧ strip s.title = s.title ∧ strip s.content = s.content := by
  intro ls
  induction ls with
  | nil =>
    intro cur acc hcur s hs
    cases cur with
    | none => simp [sectionsLoop] at hs
    | some t =>
      by_cases hacc : acc.isEmpty = true
      · simp [sectionsLoop, hacc] at hs
      · have hacc2 : acc.isEmpty = false := by simpa using hacc
        simp [sectionsLoop, hacc2] at hs
        rw [hs]
        exact ⟨rfl, hcur t rfl, strip_idem _⟩
  | cons l ls ih =>
    intro cur acc hcur s hs
    by_cases hbl : (strip l).isEmpty = true
    · have hstep : sectionsLoop p n (l :: ls) cur acc = sectionsLoop p n ls cur acc := by
        simp [sectionsLoop, hbl]
      rw [hstep] at hs
      exact ih cur acc hcur s hs
    · have hbl2 : (strip l).isEmpty = false := by simpa using hbl
      by_cases hng : namedGuard (identify_section_type p (strip l)) = true
      · have hnew : ∀ x ∈ sectionsLoop p n ls (some (strip l)) [],
            x.page_number = n ∧ strip x.title = x.title ∧ strip x.content = x.content := by
          refine ih (some (strip l)) [] ?_
          intro t ht
          injection ht with hti
          rw [← hti]
          exact strip_idem l
        cases cur with
        | none =>
          have hstep : sectionsLoop p n (l :: ls) none acc =
              ⟨strip l, [], n, (identify_section_type p (strip l)).getD ""⟩ ::
                sectionsLoop p n ls (some (strip l)) [] := by
            simp [sectionsLoop, hbl2, hng]
          rw [hstep] at hs
          rcases List.mem_cons.mp hs with hm | hm
          · rw [hm]
            exact ⟨rfl, strip_idem l, strip_nil⟩
          · exact hnew s hm
        | some t =>
          have hstep : sectionsLoop p n (l :: ls) (some t) acc =
              ⟨t, strip (join1 acc), n, "section"⟩ ::
                ⟨strip l, [], n, (identify_section_type p (strip l)).getD ""⟩ ::
                  sectionsLoop p n ls (some (strip l)) [] := by
            simp [sectionsLoop, hbl2, hng]
          rw [hstep] at hs
          rcases List.mem_cons.mp hs with hm | hm
          · rw [hm]
            exact ⟨rfl, hcur t rfl, strip_idem _⟩
          · rcases List.mem_cons.mp hm with hm2 | hm2
            · rw [hm2]
              exact ⟨rfl, strip_idem l, strip_nil⟩
            · exact hnew s hm2
      · have hng2 : namedGuard (identify_section_type p (strip l)) = false := by
          simpa using hng
        cases cur with
        | some t =>
          have hstep : sectionsLoop p n (l :: ls) (some t) acc =
              sectionsLoop p n ls (some t) (acc ++ [strip l]) := by
            simp [sectionsLoop, hbl2, hng2]
          rw [hstep] at hs
          exact ih (some t) (acc ++ [strip l]) hcur s hs
        | none =>
          have hstep : sectionsLoop p n (l :: ls) none acc =
              sectionsLoop p n ls (some (pageTitle n)) [strip l] := by
            simp [sectionsLoop, hbl2, hng2]
          rw [hstep] at hs
          refine ih (some (pageTitle n)) [strip l] ?_ s hs
          intro t ht
          injection ht with hti
          rw [← hti]
          exact strip_pageTitle n

/-- C10: every record returned by extract-sections carries the page
number it was called with, and its title and content strings are
trimmed, that is, fixed points of strip. -/
theorem c10_theorem (text : List Char) (n : Nat) (s : DocumentSection)
    (hs : s ∈ extract_sections procInit text n) :
    s.page_number = n ∧ strip s.title = s.title ∧ strip s.content = s.content :=
  c10_loop procInit n (splitOnNl text) none [] (fun _ ht => by cases ht) s hs

/-- C10 witness: a record of a concrete run satisfies the invariants. -/
theorem c10_witness :
    (⟨"Abstract".data, "body text here.".data, 3, "section"⟩ : DocumentSection) ∈
      extract_sections procInit ("Abstract\nbody text here.".data) 3 ∧
    ((⟨"Abstract".data, "body text here.".data, 3, "section"⟩ :
        DocumentSection).page_number = 3 ∧
      strip (⟨"Abstract".data, "body text here.".data, 3, "section"⟩ :
        DocumentSection).title =
        (⟨"Abstract".data, "body text here.".data, 3, "section"⟩ :
          DocumentSection).title ∧
      strip (⟨"Abstract".data, "body text here.".data, 3, "section"⟩ :
        DocumentSection).content =
        (⟨"Abstract".data, "body text here.".data, 3, "section"⟩ :
          DocumentSection).content) :=
  ⟨by decide,
   c10_theorem ("Abstract\nbody text here.".data) 3
     ⟨"Abstract".data, "body text here.".data, 3, "section"⟩ (by decide)⟩

theorem blank_of_filter_nil :
    ∀ ls : List (List Char),
      ((ls.map strip).filter (fun x => !x.isEmpty)) = [] → ∀ l ∈ ls, strip l = [] := by
  intro ls
  induction ls with
  | nil => intro _ l hl; cases hl
  | cons a as ih =>
    intro h l hl
    rw [List.map_cons, List.filter_cons] at h
    by_cases hb : (strip a).isEmpty = true
    · have ha : strip a = [] := List.isEmpty_iff.mp hb
      rcases List.mem_cons.mp hl with rfl | hm
      · exact ha
      · apply ih _ l hm
        simpa [hb] using h
    · have hb2 : (strip a).isEmpty = false := by simpa using hb
      rw [hb2] at h
      simp at h

theorem c6_loop (n : Nat) :
    ∀ (ls : List (List Char)) (l : List Char),
      ((ls.map strip).filter (fun x => !x.isEmpty)) = [l] →
      namedGuard (identify_section_type procInit l) = false →
      sectionsLoop procInit n ls none [] = [⟨pageTitle n, l, n, "section"⟩] := by
  intro ls
  induction ls with
  | nil =>
    intro l h _
    simp at h
  | cons a as ih =>
    intro l hfil hng
    rw [List.map_cons, List.filter_cons] at hfil
    by_cases hb : (strip a).isEmpty = true
    · have hstep : sectionsLoop procInit n (a :: as) none [] =
          sectionsLoop procInit n as none [] := by
        simp [sectionsLoop, hb]
      rw [hstep]
      apply ih l _ hng
      simpa [hb] using hfil
    · have hb2 : (strip a).isEmpty = false := by simpa using hb
      rw [hb2] at hfil
      simp only [Bool.not_false, if_pos] at hfil
      have hl : strip a = l := (List.cons.injEq _ _ _ _).mp hfil |>.1
      have hrest : ((as.map strip).filter (fun x => !x.isEmpty)) = [] :=
        (List.cons.injEq _ _ _ _).mp hfil |>.2
      have hng2 : namedGuard (identify_section_type procInit (strip a)) = false := by
        rw [hl]; exact hng
      have hstep : sectionsLoop procInit n (a :: as) none [] =
          sectionsLoop procInit n as (some (pageTitle n)) [strip a] := by
        simp [sectionsLoop, hb2, hng2]
      rw [hstep,
        sectionsLoop_blanks procInit n as _ _ (blank_of_filter_nil as hrest)]
      have hjoin : join1 [strip a] = strip a := rfl
      have hfin : sectionsLoop procInit n [] (some (pageTitle n)) [strip a] =
          [⟨pageTitle n, strip (join1 [strip a]), n, "section"⟩] := by
        simp [sectionsLoop]
      rw [hfin, hjoin, strip_idem, hl]

/-- C6: a page whose only non-blank line is classified neither as a named
type nor as a recognised heading yields a single generic record titled
Page N Content carrying that trimmed line as content. -/
theorem c6_theorem (text : List Char) (n : Nat) (l : List Char)
    (hf : (((splitOnNl text).map strip).filter (fun x => !x.isEmpty)) = [l])
    (hu : namedGuard (identify_section_type procInit l) = false) :
    extract_sections procInit text n = [⟨pageTitle n, l, n, "section"⟩] :=
  c6_loop n (splitOnNl text) l hf hu

/-- C6 witness: a concrete single-body-line page on page seven. -/
theorem c6_witness :
    ((((splitOnNl ("\n just some body text. \n".data)).map strip).filter
        (fun x => !x.isEmpty)) = ["just some body text.".data]) ∧
    namedGuard (identify_section_type procInit ("just some body text.".data)) = false ∧
    extract_sections procInit ("\n just some body text. \n".data) 7 =
      [⟨pageTitle 7, "just some body text.".data, 7, "section"⟩] :=
  ⟨by decide, by decide,
   c6_theorem ("\n just some body text. \n".data) 7 ("just some body text.".data)
     (by decide) (by decide)⟩

/-- C2 counterexample: a page holding the single named heading Abstract
produces exactly ONE record, the empty-content opening record, because
the end-of-page emit requires a non-empty buffer; the claim that every
named line produces exactly two records is therefore false. -/
theorem c2_counterexample :
    namedGuard (identify_section_type procInit ("Abstract".data)) = true ∧
    extract_sections procInit ("Abstract".data) 1 =
      [⟨"Abstract".data, [], 1, "title"⟩] ∧
    (extract_sections procInit ("Abstract".data) 1).length = 1 := by
  decide

/-- C2 amended: a named heading immediately yields its empty-content
record with the detected specific type; when a later named heading on
the page closes it, it additionally yields a record with the accumulated
intervening lines joined by single spaces and the generic type, empty
for consecutive headings; a trailing heading not followed by another
named heading yields no closing record when its buffer is empty. -/
theorem c2_theorem (n : Nat) (h₁ h₂ : List Char) (t₁ t₂ : String)
    (body : List (List Char))
    (hh₁ : strip h₁ = h₁ ∧ h₁ ≠ [] ∧ '\n' ∉ h₁)
    (ht₁ : identify_section_type procInit h₁ = some t₁ ∧ namedGuard (some t₁) = true)
    (hh₂ : strip h₂ = h₂ ∧ h₂ ≠ [] ∧ '\n' ∉ h₂)
    (ht₂ : identify_section_type procInit h₂ = some t₂ ∧ namedGuard (some t₂) = true)
    (hb : ∀ b ∈ body, strip b = b ∧ b ≠ [] ∧ '\n' ∉ b ∧
      namedGuard (identify_section_type procInit b) = false) :
    extract_sections procInit (unlines (h₁ :: (body ++ [h₂]))) n =
      [⟨h₁, [], n, t₁⟩,
       ⟨h₁, strip (join1 body), n, "section"⟩,
       ⟨h₂, [], n, t₂⟩] := by
  obtain ⟨hs₁, hne₁, hnl₁⟩ := hh₁
  obtain ⟨hid₁, hg₁⟩ := ht₁
  obtain ⟨hs₂, hne₂, hnl₂⟩ := hh₂
  obtain ⟨hid₂, hg₂⟩ := ht₂
  have hnlall : ∀ l ∈ (h₁ :: (body ++ [h₂])), '\n' ∉ l := by
    intro l hl
    rcases List.mem_cons.mp hl with rfl | hl2
    · exact hnl₁
    · rcases List.mem_append.mp hl2 with hm | hm
      · exact (hb l hm).2.2.1
      · rw [List.mem_singleton.mp hm]
        exact hnl₂
  unfold extract_sections
  rw [splitOnNl_unlines _ (by simp) hnlall]
  have hbne : (strip h₁).isEmpty = false := by
    rw [hs₁]
    cases h₁ with
    | nil => exact absurd rfl hne₁
    | cons _ _ => rfl
  have hstep1 : sectionsLoop procInit n (h₁ :: (body ++ [h₂])) none [] =
      ⟨h₁, [], n, t₁⟩ :: sectionsLoop procInit n (body ++ [h₂]) (some h₁) [] := by
    simp [sectionsLoop, hbne, hs₁, hid₁, hg₁]
    exact fun hc => absurd hc hne₁
  rw [hstep1,
    sectionsLoop_accum procInit n body [h₂] h₁ []
      (fun b hm => ⟨(hb b hm).1, (hb b hm).2.1, (hb b hm).2.2.2⟩)]
  have hbne2 : (strip h₂).isEmpty = false := by
    rw [hs₂]
    cases h₂ with
    | nil => exact absurd rfl hne₂
    | cons _ _ => rfl
  have hstep2 : sectionsLoop procInit n [h₂] (some h₁) ([] ++ body) =
      [⟨h₁, strip (join1 body), n, "section"⟩, ⟨h₂, [], n, t₂⟩] := by
    simp [sectionsLoop, hbne2, hs₂, hid₂, hg₂]
    exact fun hc => absurd hc hne₂
  rw [hstep2]

/-- C2 witness: heading, one body line, then a second heading: the first
heading yields its two records and the trailing heading its opening
record only. -/
theorem c2_witness :
    extract_sections procInit
        (unlines ["Abstract".data, "Some body text.".data, "2. Methodology".data]) 4 =
      [⟨"Abstract".data, [], 4, "title"⟩,
       ⟨"Abstract".data, "Some body text.".data, 4, "section"⟩,
       ⟨"2. Methodology".data, [], 4, "methodology"⟩] := by
  have h := c2_theorem 4 ("Abstract".data) ("2. Methodology".data) "title"
    "methodology" ["Some body text.".data]
    (by decide) (by decide) (by decide) (by decide) (by decide)
  exact h.trans (by decide)

theorem abstractFromLines_some (lines : List (List Char)) (s j : Nat)
    (h : scanBounds lines 0 none = (some s, some j)) :
    abstractFromLines lines =
      (let t := strip (join1 ((lines.drop s).take (j - s)));
       if 50 < t.length then some t else none) := by
  unfold abstractFromLines
  rw [h]

theorem abstractFromLines_no_end (lines : List (List Char)) (s : Nat)
    (h : scanBounds lines 0 none = (some s, none)) :
    abstractFromLines lines =
      (let t := strip (join1 ((lines.drop s).take 10));
       if 50 < t.length then some t else none) := by
  unfold abstractFromLines
  rw [h]

set_option maxRecDepth 100000 in
/-- C1 counterexample: on a first page whose first two lines both match
the abstract heading rule, the code anchors the start after the SECOND
matching line, so the output differs from the claim, which anchors it
after the first matching line. -/
theorem c1_counterexample :
    abstractSpecFirst
        ("Abstract\nSummary\nThis paper examines widget durability across fifty controlled trials.".data) ≠
      extract_abstract
        ("Abstract\nSummary\nThis paper examines widget durability across fifty controlled trials.".data) := by
  decide

/-- C1 amended: the start is one past the LAST line matching the abstract
rule seen before the scan stops; the scan stops at the first line that
does not itself match the abstract rule, matches an end rule, and comes
after some abstract-rule line, this stopping line being the exclusive
end; without such a line ten lines are taken from the start; the joined
trimmed text is returned only when longer than fifty characters. -/
theorem c1_theorem :
    (∀ (pre mid post : List (List Char)) (a e : List Char),
      (∀ l ∈ pre, '\n' ∉ l ∧ matchEndRule l = false) →
      '\n' ∉ a → matchAbstract a = true →
      (∀ l ∈ mid, '\n' ∉ l ∧ matchAbstract l = false ∧ matchEndRule l = false) →
      '\n' ∉ e → matchAbstract e = false → matchEndRule e = true →
      (∀ l ∈ post, '\n' ∉ l) →
      extract_abstract (unlines (pre ++ (a :: (mid ++ (e :: post))))) =
        (let t := strip (join1 mid);
         if 50 < t.length then some t else none)) ∧
    (∀ (pre rest : List (List Char)) (a : List Char),
      (∀ l ∈ pre, '\n' ∉ l ∧ matchEndRule l = false) →
      '\n' ∉ a → matchAbstract a = true →
      (∀ l ∈ rest, '\n' ∉ l ∧ matchAbstract l = false ∧ matchEndRule l = false) →
      extract_abstract (unlines (pre ++ (a :: rest))) =
        (let t := strip (join1 (rest.take 10));
         if 50 < t.length then some t else none)) := by
  constructor
  · intro pre mid post a e hpre hnla ha hmid hnle hae hee hpost
    have hnlall : ∀ l ∈ (pre ++ (a :: (mid ++ (e :: post)))), '\n' ∉ l := by
      intro l hl
      rcases List.mem_append.mp hl with hm | hm
      · exact (hpre l hm).1
      · rcases List.mem_cons.mp hm with rfl | hm2
        · exact hnla
        · rcases List.mem_append.mp hm2 with hm3 | hm3
          · exact (hmid l hm3).1
          · rcases List.mem_cons.mp hm3 with rfl | hm4
            · exact hnle
            · exact hpost l hm4
    have hscan : scanBounds (pre ++ (a :: (mid ++ (e :: post)))) 0 none =
        (some (pre.length + 1), some (pre.length + 1 + mid.length)) := by
      have hsplit : pre ++ (a :: (mid ++ (e :: post))) =
          (pre ++ (a :: mid)) ++ (e :: post) := by
        simp
      rw [hsplit, scanBounds_skip (pre ++ (a :: mid)) (e :: post) 0 none
        (by
          intro l hl
          rcases List.mem_append.mp hl with hm | hm
          · exact Or.inr (hpre l hm).2
          · rcases List.mem_cons.mp hm with rfl | hm2
            · exact Or.inl ha
            · exact Or.inr (hmid l hm2).2.2)]
      have hst : stepSt (pre ++ (a :: mid)) 0 none = some (pre.length + 1) := by
        rw [stepSt_append]
        simp only [stepSt, ha, if_pos]
        rw [stepSt_no_abs mid _ _ (fun l hl => (hmid l hl).2.1)]
        simp
      rw [hst]
      have hlen : 0 + (pre ++ (a :: mid)).length = pre.length + 1 + mid.length := by
        simp
        omega
      rw [hlen, scanBounds_stop e post _ _ hae hee]
    unfold extract_abstract
    rw [splitOnNl_unlines _ (by simp) hnlall, abstractFromLines_some _ _ _ hscan]
    have hdt : ((pre ++ (a :: (mid ++ (e :: post)))).drop (pre.length + 1)).take
        (pre.length + 1 + mid.length - (pre.length + 1)) = mid := by
      have hsplit2 : pre ++ (a :: (mid ++ (e :: post))) =
          (pre ++ [a]) ++ (mid ++ (e :: post)) := by
        simp
      rw [hsplit2, List.drop_left' (by simp)]
      have harith : pre.length + 1 + mid.length - (pre.length + 1) = mid.length := by
        omega
      rw [harith, List.take_left]
    rw [hdt]
  · intro pre rest a hpre hnla ha hrest
    have hnlall : ∀ l ∈ (pre ++ (a :: rest)), '\n' ∉ l := by
      intro l hl
      rcases List.mem_append.mp hl with hm | hm
      · exact (hpre l hm).1
      · rcases List.mem_cons.mp hm with rfl | hm2
        · exact hnla
        · exact (hrest l hm2).1
    have hscan : scanBounds (pre ++ (a :: rest)) 0 none =
        (some (pre.length + 1), none) := by
      have h1 : scanBounds ((pre ++ (a :: rest)) ++ []) 0 none =
          scanBounds [] (0 + (pre ++ (a :: rest)).length)
            (stepSt (pre ++ (a :: rest)) 0 none) :=
        scanBounds_skip _ [] 0 none
          (by
            intro l hl
            rcases List.mem_append.mp hl with hm | hm
            · exact Or.inr (hpre l hm).2
            · rcases List.mem_cons.mp hm with rfl | hm2
              · exact Or.inl ha
              · exact Or.inr (hrest l hm2).2.2)
      rw [List.append_nil] at h1
      rw [h1]
      have hst : stepSt (pre ++ (a :: rest)) 0 none = some (pre.length + 1) := by
        rw [stepSt_append]
        simp only [stepSt, ha, if_pos]
        rw [stepSt_no_abs rest _ _ (fun l hl => (hrest l hl).2.1)]
        simp
      rw [hst]
      rfl
    unfold extract_abstract
    rw [splitOnNl_unlines _ (by simp) hnlall, abstractFromLines_no_end _ _ hscan]
    have hdrop : (pre ++ (a :: rest)).drop (pre.length + 1) = rest := by
      have hsplit2 : pre ++ (a :: rest) = (pre ++ [a]) ++ rest := by
        simp
      rw [hsplit2, List.drop_left' (by simp)]
    rw [hdrop]

set_option maxRecDepth 100000 in
/-- C1 witness: the spec example page, whose abstract body exceeds fifty
characters and is cut off at the keywords heading. -/
theorem c1_witness :
    extract_abstract (unlines
      ["Abstract".data,
       "This paper examines widget durability across fifty trials in controlled settings.".data,
       "Keywords: widgets, durability".data,
       "1. Introduction".data]) =
      some ("This paper examines widget durability across fifty trials in controlled settings.".data) := by
  have h := c1_theorem.1 []
    ["This paper examines widget durability across fifty trials in controlled settings.".data]
    ["1. Introduction".data]
    ("Abstract".data) ("Keywords: widgets, durability".data)
    (by decide) (by decide) (by decide) (by decide) (by decide) (by decide)
    (by decide) (by decide)
  exact h.trans (by decide)

end DocProc
